import Mathlib

/-!
Verification of the Conway's Game of Life engine (`gameoflife.py`).

The source module has four functions, embedded here over `Grid := List (List Nat)`
(numpy 2-d dense arrays, row-major; all array values in the flows of interest
are 0/1 integers):

* `update_cell cell num_neighbors` — the rule evaluator (B3/S23).
* `update_grid grid periodic_boundary` — one generation step: pad the grid one
  cell on every side (wrapping for the periodic policy, zeros for the absolute
  policy), then for each logical cell take the 3×3 window of the padded grid,
  `num_neighbors = (window sum) - center`, and apply `update_cell`.
* `create_game grid periodic_boundary` — the generator: validates that the seed
  equals its own boolean cast (`np.array_equal(grid, grid.astype(bool))`,
  i.e. every value is 0 or 1) and then yields `grid, update_grid grid, ...`.
  A Python generator runs its body at the first pull, so we model it as a
  pull-indexed fallible stream `Nat → Except String Grid`: every pull fails
  with the `ValueError` message when the seed is non-binary (no generation is
  ever produced), and the k-th pull returns the k-th generation otherwise.
  (`grid.astype(int)` after a successful check is the identity on Nat grids.)
* `run_game grid num_generations periodic_boundary` — materializes the first
  `num_generations` pulls into a list.  `np.zeros((n, h, w))` raises
  `ValueError: negative dimensions are not allowed` for a negative `n`, before
  the loop runs; for `n = 0` the loop body never runs, so the generator is
  never pulled.  Pulling the generator sequentially and propagating its error
  is exactly `mapM` over `Except`.
-/

namespace GoL

abbrev Grid := List (List Nat)

/-- Rule evaluator `update_cell` from the source: alive next iff exactly three live
neighbors, or exactly two live neighbors and currently alive. -/
def update_cell (cell : Nat) (num_neighbors : Nat) : Nat :=
  if num_neighbors = 3 then 1
  else if num_neighbors = 2 ∧ cell = 1 then 1
  else 0

/-- Array indexing `g[i, j]`; out-of-range reads default to `0`
(all reads performed by the source are in range). -/
def cellAt (g : Grid) (i j : Nat) : Nat :=
  (g.getD i []).getD j 0

/-- Periodic padding:
`np.column_stack((grid[:, -1], grid, grid[:, 0]))` glues the last column to the
left and the first column to the right, then
`np.vstack((grid[-1], grid, grid[0]))` glues the (already column-padded) last
row on top and first row at the bottom.  `x[-1]` is `x[len - 1]`. -/
def pad_periodic (g : Grid) : Grid :=
  let cols := g.map fun row => row.getD (row.length - 1) 0 :: (row ++ [row.getD 0 0])
  cols.getD (cols.length - 1) [] :: (cols ++ [cols.getD 0 []])

/-- Absolute padding: `np.zeros((H + 2, W + 2))` with the grid written into
the interior `temp_grid[1:-1, 1:-1]`, i.e. a border of dead cells. -/
def pad_absolute (g : Grid) : Grid :=
  let W := (g.getD 0 []).length
  let mid := g.map fun row => 0 :: (row ++ [0])
  List.replicate (W + 2) 0 :: (mid ++ [List.replicate (W + 2) 0])

/-- Window sum `np.sum(grid[i:i+3, j:j+3])`: the sum of the 3×3 window of the padded grid
whose top-left corner is `(i, j)` (always fully in range in the source). -/
def sub_sum (p : Grid) (i j : Nat) : Nat :=
  cellAt p i j + cellAt p i (j + 1) + cellAt p i (j + 2) +
  cellAt p (i + 1) j + cellAt p (i + 1) (j + 1) + cellAt p (i + 1) (j + 2) +
  cellAt p (i + 2) j + cellAt p (i + 2) (j + 1) + cellAt p (i + 2) (j + 2)

/-- Generation step `update_grid` from the source: pad according to the boundary policy, then
fill a fresh `shape`-sized grid with `update_cell cell (window sum - cell)`.
The subtraction is exact: the center is one of the nine summands. -/
def update_grid (grid : Grid) (periodic_boundary : Bool) : Grid :=
  let H := grid.length
  let W := (grid.getD 0 []).length
  let padded := if periodic_boundary then pad_periodic grid else pad_absolute grid
  (List.range H).map fun i => (List.range W).map fun j =>
    update_cell (cellAt padded (i + 1) (j + 1))
      (sub_sum padded i j - cellAt padded (i + 1) (j + 1))

/-- Boolean cast `grid.astype(bool)` viewed back as integers: nonzero becomes 1. -/
def astype_bool (g : Grid) : Grid :=
  g.map (List.map fun v => if v ≠ 0 then 1 else 0)

/-- Every cell value of the grid is 0 or 1. -/
def binary_grid (g : Grid) : Prop :=
  ∀ row ∈ g, ∀ v ∈ row, v = 0 ∨ v = 1

instance (g : Grid) : Decidable (binary_grid g) := by
  unfold binary_grid; infer_instance

/-- The generations of the game: generation 0 is the seed, each later one is
`update_grid` of the previous. -/
def game_gen (grid : Grid) (periodic_boundary : Bool) : Nat → Grid
  | 0 => grid
  | n + 1 => update_grid (game_gen grid periodic_boundary n) periodic_boundary

/-- Generator `create_game` as a pull-indexed stream: the generator body validates the
seed before its first `yield`, so every pull of an invalid game raises
`ValueError("Grid contains non-binary values.")` and a valid game's k-th pull
returns the k-th generation. -/
def create_game (grid : Grid) (periodic_boundary : Bool) :
    Nat → Except String Grid := fun k =>
  if grid = astype_bool grid then
    Except.ok (game_gen grid periodic_boundary k)
  else
    Except.error "Grid contains non-binary values."

/-- Batch runner `run_game`: `np.zeros` rejects a negative generation count; otherwise the
result array collects the first `num_generations` sequential pulls of the
generator (propagating a validation failure of the first pull, if any). -/
def run_game (grid : Grid) (num_generations : Int) (periodic_boundary : Bool) :
    Except String (List Grid) :=
  if num_generations < 0 then
    Except.error "negative dimensions are not allowed"
  else
    (List.range num_generations.toNat).mapM (create_game grid periodic_boundary)

/-- The H×W grid that is dead everywhere except a 2×2 live block with top-left
corner `(r, c)`. -/
def block_grid (H W r c : Nat) : Grid :=
  (List.range H).map fun i => (List.range W).map fun j =>
    if r ≤ i ∧ i < r + 2 ∧ c ≤ j ∧ j < c + 2 then 1 else 0

/-- The H×W grid that is dead everywhere except single live cells at the
corners `(0, 0)` and `(H-1, W-1)`. -/
def corner_grid (H W : Nat) : Grid :=
  (List.range H).map fun i => (List.range W).map fun j =>
    if (i = 0 ∧ j = 0) ∨ (i = H - 1 ∧ j = W - 1) then 1 else 0

/-- The grid is a rectangular H×W array (numpy shape `(H, W)`). -/
def rect (g : Grid) (H W : Nat) : Prop :=
  g.length = H ∧ ∀ row ∈ g, row.length = W

instance (g : Grid) (H W : Nat) : Decidable (rect g H W) := by
  unfold rect; infer_instance

/-- Indicator of the two-element index interval `[r, r+2)`; the row/column
profile of the 2×2 block. -/
def rowInd (r a : Nat) : Nat :=
  if r ≤ a ∧ a < r + 2 then 1 else 0

/-- Indicator of the interval `[r+1, r+2]`: the rows of the absolute-padded
grid that carry block rows `r, r+1`. -/
def rowIndAbs (r a : Nat) : Nat :=
  if r + 1 ≤ a ∧ a ≤ r + 2 then 1 else 0

lemma update_cell_binary (cell n : Nat) :
    update_cell cell n = 0 ∨ update_cell cell n = 1 := by
  unfold update_cell; split_ifs <;> simp

lemma update_cell_dead (n : Nat) (h : n ≤ 2) : update_cell 0 n = 0 := by
  unfold update_cell; split_ifs <;> simp_all

/-- Reading a cons-and-append "sandwich" list at position `y`. -/
lemma getD_sandwich {α : Type} (a b d : α) (l : List α) (y : Nat) :
    (a :: (l ++ [b])).getD y d =
      if y = 0 then a
      else if y ≤ l.length then l.getD (y - 1) d
      else if y = l.length + 1 then b
      else d := by
  match y with
  | 0 => simp
  | k + 1 =>
    simp only [List.getD_cons_succ, Nat.add_sub_cancel]
    rcases Nat.lt_or_ge k l.length with hk | hk
    · rw [List.getD_append _ _ _ _ hk, if_neg (show ¬(k + 1 = 0) by omega),
        if_pos (show k + 1 ≤ l.length by omega)]
    · rw [List.getD_append_right _ _ _ _ hk]
      rcases Nat.eq_or_lt_of_le hk with hk2 | hk2
      · subst hk2
        rw [Nat.sub_self, List.getD_cons_zero,
          if_neg (show ¬(l.length + 1 = 0) by omega),
          if_neg (show ¬(l.length + 1 ≤ l.length) by omega),
          if_pos (show l.length + 1 = l.length + 1 from rfl)]
      · have h3 : k - l.length = (k - l.length - 1) + 1 := by omega
        rw [h3, List.getD_cons_succ,
          if_neg (show ¬(k + 1 = 0) by omega),
          if_neg (show ¬(k + 1 ≤ l.length) by omega),
          if_neg (show ¬(k + 1 = l.length + 1) by omega)]
        exact List.getD_eq_default _ _ (by simp)

lemma getD_map_list (g : Grid) (f : List Nat → List Nat) (k : Nat)
    (hk : k < g.length) :
    (g.map f).getD k [] = f (g.getD k []) := by
  rw [List.getD_eq_getElem _ _ (by simpa using hk), List.getElem_map,
    List.getD_eq_getElem _ _ hk]

lemma getD_replicate_zero (n y : Nat) :
    (List.replicate n (0 : Nat)).getD y 0 = 0 := by
  rcases Nat.lt_or_ge y n with h | h
  · rw [List.getD_eq_getElem _ _ (by simpa using h)]; simp
  · exact List.getD_eq_default _ _ (by simpa using h)

lemma map_self_iff {α : Type} (f : α → α) (l : List α) :
    l.map f = l ↔ ∀ x ∈ l, f x = x := by
  induction l with
  | nil => simp
  | cons a t ih => simp [ih]

/-- The numpy validation `np.array_equal(grid, grid.astype(bool))` passes
exactly when every cell value is 0 or 1. -/
lemma astype_bool_eq_iff (g : Grid) : g = astype_bool g ↔ binary_grid g := by
  unfold astype_bool binary_grid
  rw [eq_comm, map_self_iff]
  constructor
  · intro h row hrow v hv
    have := congrArg (fun r => r.getD 0 0) (h row hrow)
    have h2 := h row hrow
    rw [map_self_iff] at h2
    have := h2 v hv
    by_cases hv0 : v = 0
    · exact Or.inl hv0
    · right; rw [if_pos hv0] at this; omega
  · intro h row hrow
    rw [map_self_iff]
    intro v hv
    rcases h row hrow v hv with rfl | rfl <;> simp

lemma mapM_ok_of {α β : Type} (f : α → Except String β) (hfun : α → β)
    (l : List α) (h : ∀ x ∈ l, f x = Except.ok (hfun x)) :
    l.mapM f = Except.ok (l.map hfun) := by
  induction l with
  | nil => rfl
  | cons a t ih =>
    rw [List.mapM_cons, h a (by simp), ih (fun x hx => h x (by simp [hx]))]
    rfl

/-- Reading the periodically padded row: position `y` of
`row[-1] :: row ++ [row[0]]` is position `(y + W - 1) % W` of `row`. -/
lemma pad_row_getD (row : List Nat) (W : Nat) (hW : 0 < W)
    (hlen : row.length = W) (y : Nat) (hy : y ≤ W + 1) :
    (row.getD (row.length - 1) 0 :: (row ++ [row.getD 0 0])).getD y 0 =
      row.getD ((y + W - 1) % W) 0 := by
  rw [getD_sandwich, hlen]
  rcases Nat.eq_zero_or_pos y with rfl | hy0
  · rw [if_pos rfl, Nat.zero_add, Nat.mod_eq_of_lt (show W - 1 < W by omega)]
  · rw [if_neg (show ¬(y = 0) by omega)]
    rcases Nat.lt_or_ge y (W + 1) with hyW | hyW
    · rw [if_pos (show y ≤ W by omega), show y + W - 1 = (y - 1) + W by omega,
        Nat.add_mod_right, Nat.mod_eq_of_lt (show y - 1 < W by omega)]
    · have hyy : y = W + 1 := by omega
      subst hyy
      rw [if_neg (show ¬(W + 1 ≤ W) by omega),
        if_pos (show W + 1 = W + 1 from rfl),
        show W + 1 + W - 1 = 2 * W by omega, Nat.mul_mod_left]

/-- The periodic padding realizes toroidal adjacency: entry `(x, y)` of the
padded grid is entry `((x - 1) mod H, (y - 1) mod W)` of the logical grid
(with the offset written as `x + H - 1` to stay in `Nat`).  In particular the
padded left column is the grid's last column, the padded right column its
first column, analogously for the top/bottom rows, and the padded corners
wrap diagonally. -/
lemma cellAt_pad_periodic (g : Grid) (H W : Nat) (hg : rect g H W)
    (hH : 0 < H) (hW : 0 < W) (x y : Nat) (hx : x ≤ H + 1) (hy : y ≤ W + 1) :
    cellAt (pad_periodic g) x y = cellAt g ((x + H - 1) % H) ((y + W - 1) % W) := by
  obtain ⟨hlen, hrow⟩ := hg
  have hrowlen : ∀ k, k < H → (g.getD k []).length = W := by
    intro k hk
    apply hrow
    rw [List.getD_eq_getElem _ _ (by omega)]
    exact List.getElem_mem _
  have key : ∀ k, k < H →
      ((g.map fun row =>
          row.getD (row.length - 1) 0 :: (row ++ [row.getD 0 0])).getD k []).getD y 0
        = cellAt g k ((y + W - 1) % W) := by
    intro k hk
    rw [getD_map_list _ _ _ (by omega)]
    exact pad_row_getD _ _ hW (hrowlen k hk) y hy
  show ((pad_periodic g).getD x []).getD y 0 = _
  simp only [pad_periodic]
  rw [getD_sandwich]
  simp only [List.length_map, hlen]
  rcases Nat.eq_zero_or_pos x with rfl | hx0
  · rw [if_pos rfl,
      show (0 + H - 1) % H = H - 1 from by
        rw [Nat.zero_add]; exact Nat.mod_eq_of_lt (by omega)]
    exact key (H - 1) (by omega)
  · rw [if_neg (show ¬(x = 0) by omega)]
    rcases Nat.lt_or_ge x (H + 1) with hxH | hxH
    · rw [if_pos (show x ≤ H by omega),
        show (x + H - 1) % H = x - 1 from by
          rw [show x + H - 1 = (x - 1) + H by omega, Nat.add_mod_right]
          exact Nat.mod_eq_of_lt (by omega)]
      exact key (x - 1) (by omega)
    · have hxx : x = H + 1 := by omega
      subst hxx
      rw [if_neg (show ¬(H + 1 ≤ H) by omega),
        if_pos (show H + 1 = H + 1 from rfl),
        show (H + 1 + H - 1) % H = 0 from by
          rw [show H + 1 + H - 1 = 2 * H by omega]; exact Nat.mul_mod_left 2 H]
      exact key 0 (by omega)

/-- The absolute padding surrounds the grid with dead cells: entry `(x, y)`
of the padded grid is the logical entry `(x - 1, y - 1)` when that is in
range and `0` for every off-grid position. -/
lemma cellAt_pad_absolute (g : Grid) (H W : Nat) (hg : rect g H W) (x y : Nat) :
    cellAt (pad_absolute g) x y =
      if 1 ≤ x ∧ x ≤ H ∧ 1 ≤ y ∧ y ≤ W then cellAt g (x - 1) (y - 1) else 0 := by
  obtain ⟨hlen, hrow⟩ := hg
  rcases Nat.eq_zero_or_pos H with rfl | hH
  · have hg0 : g = [] := List.length_eq_zero.mp hlen
    subst hg0
    rw [if_neg (show ¬(1 ≤ x ∧ x ≤ 0 ∧ 1 ≤ y ∧ y ≤ W) by omega)]
    show (([[0, 0], [0, 0]] : Grid).getD x []).getD y 0 = 0
    have hz : ∀ z, ([0, 0] : List Nat).getD z 0 = 0 := by
      intro z
      match z with
      | 0 => rfl
      | 1 => rfl
      | n + 2 => exact List.getD_eq_default _ _ (by simp)
    match x with
    | 0 => exact hz y
    | 1 => exact hz y
    | n + 2 =>
      rw [List.getD_cons_succ, List.getD_cons_succ,
        List.getD_eq_default _ _ (by simp)]
  · have hrowlen : ∀ k, k < H → (g.getD k []).length = W := by
      intro k hk
      apply hrow
      rw [List.getD_eq_getElem _ _ (by omega)]
      exact List.getElem_mem _
    have hW0 : (g.getD 0 []).length = W := hrowlen 0 hH
    show ((pad_absolute g).getD x []).getD y 0 = _
    simp only [pad_absolute]
    rw [getD_sandwich]
    simp only [List.length_map, hlen, hW0]
    rcases Nat.eq_zero_or_pos x with rfl | hx0
    · rw [if_pos rfl, getD_replicate_zero,
        if_neg (show ¬(1 ≤ 0 ∧ 0 ≤ H ∧ 1 ≤ y ∧ y ≤ W) by omega)]
    · rw [if_neg (show ¬(x = 0) by omega)]
      rcases Nat.lt_or_ge x (H + 1) with hxH | hxH
      · rw [if_pos (show x ≤ H by omega), getD_map_list _ _ _ (by omega),
          getD_sandwich, hrowlen (x - 1) (by omega)]
        rcases Nat.eq_zero_or_pos y with rfl | hy0
        · rw [if_pos rfl, if_neg (show ¬(1 ≤ x ∧ x ≤ H ∧ 1 ≤ 0 ∧ 0 ≤ W) by omega)]
        · rw [if_neg (show ¬(y = 0) by omega)]
          rcases Nat.lt_or_ge y (W + 1) with hyW | hyW
          · rw [if_pos (show y ≤ W by omega),
              if_pos (show 1 ≤ x ∧ x ≤ H ∧ 1 ≤ y ∧ y ≤ W by omega)]
            rfl
          · rcases Nat.eq_or_lt_of_le hyW with hyy | hyy
            · rw [← hyy, if_neg (show ¬(W + 1 ≤ W) by omega),
                if_pos (show W + 1 = W + 1 from rfl),
                if_neg (show ¬(1 ≤ x ∧ x ≤ H ∧ 1 ≤ W + 1 ∧ W + 1 ≤ W) by omega)]
            · rw [if_neg (show ¬(y ≤ W) by omega),
                if_neg (show ¬(y = W + 1) by omega),
                if_neg (show ¬(1 ≤ x ∧ x ≤ H ∧ 1 ≤ y ∧ y ≤ W) by omega)]
      · rcases Nat.eq_or_lt_of_le hxH with hxx | hxx
        · rw [← hxx, if_neg (show ¬(H + 1 ≤ H) by omega),
            if_pos (show H + 1 = H + 1 from rfl), getD_replicate_zero,
            if_neg (show ¬(1 ≤ H + 1 ∧ H + 1 ≤ H ∧ 1 ≤ y ∧ y ≤ W) by omega)]
        · rw [if_neg (show ¬(x ≤ H) by omega),
            if_neg (show ¬(x = H + 1) by omega),
            if_neg (show ¬(1 ≤ x ∧ x ≤ H ∧ 1 ≤ y ∧ y ≤ W) by omega)]
          exact List.getD_eq_default _ _ (by simp)

lemma getD_range_map {α : Type} (d : α) (f : Nat → α) (n i : Nat) (hi : i < n) :
    ((List.range n).map f).getD i d = f i := by
  rw [List.getD_eq_getElem _ _ (by simpa using hi)]
  simp

lemma rowInd_le_one (r a : Nat) : rowInd r a ≤ 1 := by
  unfold rowInd; split_ifs <;> omega

lemma update_grid_length (g : Grid) (p : Bool) :
    (update_grid g p).length = g.length := by
  simp [update_grid]

lemma update_grid_row_length (g : Grid) (p : Bool) (row : List Nat)
    (h : row ∈ update_grid g p) : row.length = (g.getD 0 []).length := by
  simp only [update_grid, List.mem_map] at h
  obtain ⟨i, _, rfl⟩ := h
  simp

/-- Whatever the input, every cell the update writes comes out of
`update_cell`, hence is 0 or 1. -/
lemma update_grid_binary (g : Grid) (p : Bool) : binary_grid (update_grid g p) := by
  intro row hrow v hv
  simp only [update_grid, List.mem_map] at hrow
  obtain ⟨i, _, rfl⟩ := hrow
  simp only [List.mem_map] at hv
  obtain ⟨j, _, rfl⟩ := hv
  exact update_cell_binary _ _

lemma rect_block (H W r c : Nat) : rect (block_grid H W r c) H W := by
  constructor
  · simp [block_grid]
  · intro row hrow
    simp only [block_grid, List.mem_map] at hrow
    obtain ⟨i, _, rfl⟩ := hrow
    simp

lemma cellAt_block (H W r c x y : Nat) (hr : r + 2 ≤ H) (hc : c + 2 ≤ W) :
    cellAt (block_grid H W r c) x y = rowInd r x * rowInd c y := by
  unfold cellAt
  rcases Nat.lt_or_ge x H with hx | hx
  · rw [show (block_grid H W r c).getD x [] =
        (List.range W).map (fun j => if r ≤ x ∧ x < r + 2 ∧ c ≤ j ∧ j < c + 2
          then 1 else 0) from by
      unfold block_grid; exact getD_range_map _ _ _ _ hx]
    rcases Nat.lt_or_ge y W with hy | hy
    · rw [getD_range_map _ _ _ _ hy]
      unfold rowInd; split_ifs <;> omega
    · rw [List.getD_eq_default _ _ (by simpa using hy)]
      unfold rowInd; split_ifs <;> omega
  · have hblen : (block_grid H W r c).length ≤ x := by simp [block_grid]; omega
    rw [show (block_grid H W r c).getD x [] = [] from
      List.getD_eq_default _ _ hblen]
    rw [show ([] : List Nat).getD y 0 = 0 from List.getD_eq_default _ _ (by simp)]
    unfold rowInd; split_ifs <;> omega

/-- Cell `(i, j)` of the updated grid, read off the padded grid. -/
lemma cellAt_update_grid (g : Grid) (p : Bool) (i j : Nat)
    (hi : i < g.length) (hj : j < (g.getD 0 []).length) :
    cellAt (update_grid g p) i j =
      update_cell (cellAt (if p then pad_periodic g else pad_absolute g) (i + 1) (j + 1))
        (sub_sum (if p then pad_periodic g else pad_absolute g) i j -
          cellAt (if p then pad_periodic g else pad_absolute g) (i + 1) (j + 1)) := by
  simp only [update_grid, cellAt]
  rw [getD_range_map _ _ _ _ hi, getD_range_map _ _ _ _ hj]

lemma cellAt_update_grid_true (g : Grid) (i j : Nat)
    (hi : i < g.length) (hj : j < (g.getD 0 []).length) :
    cellAt (update_grid g true) i j =
      update_cell (cellAt (pad_periodic g) (i + 1) (j + 1))
        (sub_sum (pad_periodic g) i j - cellAt (pad_periodic g) (i + 1) (j + 1)) :=
  cellAt_update_grid g true i j hi hj

lemma cellAt_update_grid_false (g : Grid) (i j : Nat)
    (hi : i < g.length) (hj : j < (g.getD 0 []).length) :
    cellAt (update_grid g false) i j =
      update_cell (cellAt (pad_absolute g) (i + 1) (j + 1))
        (sub_sum (pad_absolute g) i j - cellAt (pad_absolute g) (i + 1) (j + 1)) :=
  cellAt_update_grid g false i j hi hj

/-- The center of the 3×3 window of the periodically padded grid is the
logical cell itself. -/
lemma cellAt_pad_periodic_center (g : Grid) (H W : Nat) (hg : rect g H W)
    (hH : 0 < H) (hW : 0 < W) (i j : Nat) (hi : i < H) (hj : j < W) :
    cellAt (pad_periodic g) (i + 1) (j + 1) = cellAt g i j := by
  rw [cellAt_pad_periodic g H W hg hH hW (i + 1) (j + 1) (by omega) (by omega),
    show i + 1 + H - 1 = i + H by omega, Nat.add_mod_right, Nat.mod_eq_of_lt hi,
    show j + 1 + W - 1 = j + W by omega, Nat.add_mod_right, Nat.mod_eq_of_lt hj]

/-- The center of the 3×3 window of the absolutely padded grid is the
logical cell itself. -/
lemma cellAt_pad_absolute_center (g : Grid) (H W : Nat) (hg : rect g H W)
    (i j : Nat) (hi : i < H) (hj : j < W) :
    cellAt (pad_absolute g) (i + 1) (j + 1) = cellAt g i j := by
  rw [cellAt_pad_absolute g H W hg (i + 1) (j + 1),
    if_pos (show 1 ≤ i + 1 ∧ i + 1 ≤ H ∧ 1 ≤ j + 1 ∧ j + 1 ≤ W by omega)]
  simp

/-- Rule-level core of the still-life argument.  The nine window values
factor as products of a row profile `R0 R1 R2` and a column profile
`C0 C1 C2`; a block cell sees a 2×2 live window (3 neighbors, survives), any
other cell sees at most 2 live cells (stays dead). -/
lemma still_core (R0 R1 R2 C0 C1 C2 : Nat)
    (hR1 : R1 ≤ 1) (hC1 : C1 ≤ 1)
    (hRa : R1 = 1 → R0 + R1 + R2 = 2) (hRd : R1 = 0 → R0 + R2 ≤ 1)
    (hCa : C1 = 1 → C0 + C1 + C2 = 2) (hCd : C1 = 0 → C0 + C2 ≤ 1) :
    update_cell (R1 * C1)
      (R0 * C0 + R0 * C1 + R0 * C2 + R1 * C0 + R1 * C1 + R1 * C2 +
        R2 * C0 + R2 * C1 + R2 * C2 - R1 * C1) = R1 * C1 := by
  have hsum : R0 * C0 + R0 * C1 + R0 * C2 + R1 * C0 + R1 * C1 + R1 * C2 +
      R2 * C0 + R2 * C1 + R2 * C2 = (R0 + R1 + R2) * (C0 + C1 + C2) := by ring
  rw [hsum]
  have hrow2 : R0 + R1 + R2 ≤ 2 := by
    rcases Nat.le_one_iff_eq_zero_or_eq_one.mp hR1 with h | h
    · have := hRd h; omega
    · have := hRa h; omega
  have hcol2 : C0 + C1 + C2 ≤ 2 := by
    rcases Nat.le_one_iff_eq_zero_or_eq_one.mp hC1 with h | h
    · have := hCd h; omega
    · have := hCa h; omega
  rcases Nat.le_one_iff_eq_zero_or_eq_one.mp hR1 with h1 | h1
  · subst h1
    have hrow1 : R0 + 0 + R2 ≤ 1 := by have := hRd rfl; omega
    have hbound := Nat.mul_le_mul hrow1 hcol2
    rw [Nat.zero_mul, Nat.sub_zero]
    exact update_cell_dead _ (by omega)
  · subst h1
    rcases Nat.le_one_iff_eq_zero_or_eq_one.mp hC1 with h2 | h2
    · subst h2
      have hcol1 : C0 + 0 + C2 ≤ 1 := by have := hCd rfl; omega
      have hbound := Nat.mul_le_mul hrow2 hcol1
      rw [Nat.mul_zero, Nat.sub_zero]
      exact update_cell_dead _ (by omega)
    · subst h2
      rw [hRa rfl, hCa rfl]
      decide

/-- The three wrapped window rows of a logical row `i` meet the block rows
`{r, r+1}` exactly twice when `i` is a block row and at most once (outside
the center) otherwise. -/
lemma rowInd_window_periodic (H r i : Nat) (hH : 4 ≤ H) (hr : r + 2 ≤ H)
    (hi : i < H) :
    rowInd r ((i + 1 + H - 1) % H) = rowInd r i ∧
    (rowInd r i = 1 →
      rowInd r ((i + H - 1) % H) + rowInd r i + rowInd r ((i + 2 + H - 1) % H) = 2) ∧
    (rowInd r i = 0 →
      rowInd r ((i + H - 1) % H) + rowInd r ((i + 2 + H - 1) % H) ≤ 1) := by
  have h1 : (i + 1 + H - 1) % H = i := by
    rw [show i + 1 + H - 1 = i + H by omega, Nat.add_mod_right]
    exact Nat.mod_eq_of_lt hi
  rcases Nat.eq_zero_or_pos i with rfl | hi0
  · have h0 : (0 + H - 1) % H = H - 1 := by
      rw [Nat.zero_add]; exact Nat.mod_eq_of_lt (by omega)
    have h2 : (0 + 2 + H - 1) % H = 1 := by
      rw [show 0 + 2 + H - 1 = 1 + H by omega, Nat.add_mod_right]
      exact Nat.mod_eq_of_lt (by omega)
    rw [h0, h1, h2]
    unfold rowInd
    split_ifs <;> (try omega) <;> simp
  · have h0 : (i + H - 1) % H = i - 1 := by
      rw [show i + H - 1 = (i - 1) + H by omega, Nat.add_mod_right]
      exact Nat.mod_eq_of_lt (by omega)
    rcases Nat.lt_or_ge (i + 1) H with hi1 | hi1
    · have h2 : (i + 2 + H - 1) % H = i + 1 := by
        rw [show i + 2 + H - 1 = (i + 1) + H by omega, Nat.add_mod_right]
        exact Nat.mod_eq_of_lt hi1
      rw [h0, h1, h2]
      unfold rowInd
      split_ifs <;> (try omega) <;> simp
    · have h2 : (i + 2 + H - 1) % H = 0 := by
        rw [show i + 2 + H - 1 = H + H by omega, Nat.add_mod_left, Nat.mod_self]
      rw [h0, h1, h2]
      unfold rowInd
      split_ifs <;> (try omega) <;> simp

/-- Same counting facts for the absolute padding, where window row `x` of the
padded grid carries a block row exactly when `r + 1 ≤ x ≤ r + 2`. -/
lemma rowInd_window_absolute (r i : Nat) :
    rowIndAbs r (i + 1) = rowInd r i ∧
    (rowInd r i = 1 →
      rowIndAbs r i + rowInd r i + rowIndAbs r (i + 2) = 2) ∧
    (rowInd r i = 0 → rowIndAbs r i + rowIndAbs r (i + 2) ≤ 1) := by
  unfold rowInd rowIndAbs
  split_ifs <;> (try omega) <;> simp

/-- Entries of the periodically padded block grid factor into row and column
profiles. -/
lemma pad_periodic_block (H W r c : Nat) (hH : 4 ≤ H) (hW : 4 ≤ W)
    (hr : r + 2 ≤ H) (hc : c + 2 ≤ W) (x y : Nat) (hx : x ≤ H + 1)
    (hy : y ≤ W + 1) :
    cellAt (pad_periodic (block_grid H W r c)) x y =
      rowInd r ((x + H - 1) % H) * rowInd c ((y + W - 1) % W) := by
  rw [cellAt_pad_periodic _ H W (rect_block H W r c) (by omega) (by omega) x y hx hy,
    cellAt_block H W r c _ _ hr hc]

/-- Entries of the absolutely padded block grid factor into row and column
profiles. -/
lemma pad_absolute_block (H W r c : Nat) (hr : r + 2 ≤ H) (hc : c + 2 ≤ W)
    (x y : Nat) :
    cellAt (pad_absolute (block_grid H W r c)) x y =
      rowIndAbs r x * rowIndAbs c y := by
  rw [cellAt_pad_absolute _ H W (rect_block H W r c) x y]
  rcases Nat.lt_or_ge x (H + 1) with hx | hx
  · rcases Nat.lt_or_ge y (W + 1) with hy | hy
    · rcases Nat.eq_zero_or_pos x with rfl | hx0
      · rw [if_neg (show ¬(1 ≤ 0 ∧ 0 ≤ H ∧ 1 ≤ y ∧ y ≤ W) by omega)]
        unfold rowIndAbs; split_ifs <;> omega
      · rcases Nat.eq_zero_or_pos y with rfl | hy0
        · rw [if_neg (show ¬(1 ≤ x ∧ x ≤ H ∧ 1 ≤ 0 ∧ 0 ≤ W) by omega)]
          unfold rowIndAbs; split_ifs <;> omega
        · rw [if_pos (show 1 ≤ x ∧ x ≤ H ∧ 1 ≤ y ∧ y ≤ W by omega),
            cellAt_block H W r c _ _ hr hc]
          unfold rowInd rowIndAbs; split_ifs <;> omega
    · rw [if_neg (show ¬(1 ≤ x ∧ x ≤ H ∧ 1 ≤ y ∧ y ≤ W) by omega)]
      unfold rowIndAbs; split_ifs <;> omega
  · rw [if_neg (show ¬(1 ≤ x ∧ x ≤ H ∧ 1 ≤ y ∧ y ≤ W) by omega)]
    unfold rowIndAbs; split_ifs <;> omega

/-- One update step maps each cell of the block grid to itself (periodic). -/
lemma block_step_periodic (H W r c i j : Nat) (hH : 4 ≤ H) (hW : 4 ≤ W)
    (hr : r + 2 ≤ H) (hc : c + 2 ≤ W) (hi : i < H) (hj : j < W) :
    update_cell (cellAt (pad_periodic (block_grid H W r c)) (i + 1) (j + 1))
      (sub_sum (pad_periodic (block_grid H W r c)) i j -
        cellAt (pad_periodic (block_grid H W r c)) (i + 1) (j + 1)) =
      rowInd r i * rowInd c j := by
  unfold sub_sum
  rw [pad_periodic_block H W r c hH hW hr hc i j (by omega) (by omega),
    pad_periodic_block H W r c hH hW hr hc i (j + 1) (by omega) (by omega),
    pad_periodic_block H W r c hH hW hr hc i (j + 2) (by omega) (by omega),
    pad_periodic_block H W r c hH hW hr hc (i + 1) j (by omega) (by omega),
    pad_periodic_block H W r c hH hW hr hc (i + 1) (j + 1) (by omega) (by omega),
    pad_periodic_block H W r c hH hW hr hc (i + 1) (j + 2) (by omega) (by omega),
    pad_periodic_block H W r c hH hW hr hc (i + 2) j (by omega) (by omega),
    pad_periodic_block H W r c hH hW hr hc (i + 2) (j + 1) (by omega) (by omega),
    pad_periodic_block H W r c hH hW hr hc (i + 2) (j + 2) (by omega) (by omega)]
  obtain ⟨hRc, hRa, hRd⟩ := rowInd_window_periodic H r i hH hr hi
  obtain ⟨hCc, hCa, hCd⟩ := rowInd_window_periodic W c j hW hc hj
  rw [hRc, hCc]
  exact still_core _ _ _ _ _ _ (rowInd_le_one r i) (rowInd_le_one c j)
    hRa hRd hCa hCd

/-- One update step maps each cell of the block grid to itself (absolute). -/
lemma block_step_absolute (H W r c i j : Nat)
    (hr : r + 2 ≤ H) (hc : c + 2 ≤ W) (hi : i < H) (hj : j < W) :
    update_cell (cellAt (pad_absolute (block_grid H W r c)) (i + 1) (j + 1))
      (sub_sum (pad_absolute (block_grid H W r c)) i j -
        cellAt (pad_absolute (block_grid H W r c)) (i + 1) (j + 1)) =
      rowInd r i * rowInd c j := by
  unfold sub_sum
  rw [pad_absolute_block H W r c hr hc i j,
    pad_absolute_block H W r c hr hc i (j + 1),
    pad_absolute_block H W r c hr hc i (j + 2),
    pad_absolute_block H W r c hr hc (i + 1) j,
    pad_absolute_block H W r c hr hc (i + 1) (j + 1),
    pad_absolute_block H W r c hr hc (i + 1) (j + 2),
    pad_absolute_block H W r c hr hc (i + 2) j,
    pad_absolute_block H W r c hr hc (i + 2) (j + 1),
    pad_absolute_block H W r c hr hc (i + 2) (j + 2)]
  obtain ⟨hRc, hRa, hRd⟩ := rowInd_window_absolute r i
  obtain ⟨hCc, hCa, hCd⟩ := rowInd_window_absolute c j
  rw [hRc, hCc]
  exact still_core _ _ _ _ _ _ (rowInd_le_one r i) (rowInd_le_one c j)
    hRa hRd hCa hCd

/-- C2: for every cell state (dead or alive) and every neighbor count
`0 ≤ n ≤ 8`, `update_cell` returns alive exactly when `n = 3`, or `n = 2` and
the cell is alive; in all other combinations it returns dead (B3/S23). -/
theorem rule_evaluator_spec (cell n : Nat) (hcell : cell = 0 ∨ cell = 1)
    (hn : n ≤ 8) :
    update_cell cell n = if n = 3 ∨ (n = 2 ∧ cell = 1) then 1 else 0 := by
  rcases hcell with rfl | rfl <;> interval_cases n <;> decide

theorem rule_evaluator_witness :
    ((1 : Nat) = 0 ∨ (1 : Nat) = 1) ∧ (2 : Nat) ≤ 8 ∧
      update_cell 1 2 =
        if (2 : Nat) = 3 ∨ ((2 : Nat) = 2 ∧ (1 : Nat) = 1) then 1 else 0 :=
  ⟨Or.inr rfl, by decide, rule_evaluator_spec 1 2 (Or.inr rfl) (by decide)⟩

/-- C7: for every grid and boundary policy, one update step preserves the
grid's dimensions (rows × cols). -/
theorem dims_preserved_spec (g : Grid) (p : Bool) (H W : Nat) (hg : rect g H W) :
    rect (update_grid g p) H W := by
  obtain ⟨hlen, hrow⟩ := hg
  constructor
  · rw [update_grid_length, hlen]
  · intro row hmem
    rw [update_grid_row_length g p row hmem]
    rcases Nat.eq_zero_or_pos H with rfl | hH
    · exfalso
      have h0 : update_grid g p = [] := by
        have hl := update_grid_length g p
        rw [hlen] at hl
        exact List.length_eq_zero.mp hl
      rw [h0] at hmem
      exact absurd hmem (List.not_mem_nil _)
    · apply hrow
      rw [List.getD_eq_getElem _ _ (by omega)]
      exact List.getElem_mem _

theorem dims_preserved_witness :
    rect [[1, 0], [0, 1]] 2 2 ∧ rect (update_grid [[1, 0], [0, 1]] true) 2 2 :=
  ⟨by decide, dims_preserved_spec [[1, 0], [0, 1]] true 2 2 (by decide)⟩

/-- C10: on a 1×1 grid the periodic padding produces nine copies of the
single cell, the live-neighbor count is 8 times the cell's own value, and a
live 1×1 grid dies in one update. -/
theorem one_by_one_periodic_spec (v : Nat) :
    pad_periodic [[v]] = [[v, v, v], [v, v, v], [v, v, v]] ∧
    sub_sum (pad_periodic [[v]]) 0 0 - cellAt (pad_periodic [[v]]) 1 1 = 8 * v ∧
    update_grid [[1]] true = [[0]] := by
  refine ⟨rfl, ?_, by decide⟩
  show v + v + v + v + v + v + v + v + v - v = 8 * v
  omega

/-- C5: a negative generation count makes `run_game` fail with the numpy
`ValueError` for a negative dimension; it never returns a collection. -/
theorem negative_count_spec (g : Grid) (p : Bool) (N : Int) (hN : N < 0) :
    run_game g N p = Except.error "negative dimensions are not allowed" ∧
    ∀ out, run_game g N p ≠ Except.ok out := by
  have h : run_game g N p = Except.error "negative dimensions are not allowed" := by
    unfold run_game
    rw [if_pos hN]
  refine ⟨h, fun out hout => ?_⟩
  rw [h] at hout
  cases hout

theorem negative_count_witness :
    (-1 : Int) < 0 ∧
      run_game [[1]] (-1) true = Except.error "negative dimensions are not allowed" :=
  ⟨by decide, (negative_count_spec [[1]] true (-1) (by decide)).1⟩

/-- C1: constructing a game from a seed containing any value outside {0,1}
fails with the ValueError before any generation is computed — every pull of
the stream errors, so no grid is ever output — while for a strictly binary
seed no such error is ever raised: every pull succeeds and the first pull
returns the unmodified seed. -/
theorem seed_validation_spec (g : Grid) (p : Bool) :
    ((¬ binary_grid g) →
      ∀ k, create_game g p k = Except.error "Grid contains non-binary values.") ∧
    (binary_grid g →
      (∀ k, create_game g p k = Except.ok (game_gen g p k)) ∧
      create_game g p 0 = Except.ok g) := by
  constructor
  · intro hnb k
    unfold create_game
    rw [if_neg (fun h => hnb ((astype_bool_eq_iff g).mp h))]
  · intro hb
    have h := (astype_bool_eq_iff g).mpr hb
    exact ⟨fun k => by unfold create_game; rw [if_pos h],
      by unfold create_game; rw [if_pos h]; rfl⟩

theorem seed_validation_witness :
    (¬ binary_grid [[2]]) ∧
    create_game [[2]] true 0 = Except.error "Grid contains non-binary values." ∧
    binary_grid [[0, 1]] ∧
    create_game [[0, 1]] true 0 = Except.ok [[0, 1]] :=
  ⟨by decide, (seed_validation_spec [[2]] true).1 (by decide) 0,
   by decide, ((seed_validation_spec [[0, 1]] true).2 (by decide)).2⟩

lemma rect_getD_length (g : Grid) (H W : Nat) (hg : rect g H W) (k : Nat)
    (hk : k < H) : (g.getD k []).length = W := by
  obtain ⟨hlen, hrow⟩ := hg
  apply hrow
  rw [List.getD_eq_getElem _ _ (by omega)]
  exact List.getElem_mem _

lemma grid_map_ext (H W : Nat) (F G : Nat → Nat → Nat)
    (h : ∀ i j, i < H → j < W → F i j = G i j) :
    ((List.range H).map fun i => (List.range W).map fun j => F i j) =
      (List.range H).map fun i => (List.range W).map fun j => G i j := by
  apply List.map_congr_left
  intro i hi
  rw [List.mem_range] at hi
  apply List.map_congr_left
  intro j hj
  rw [List.mem_range] at hj
  exact h i j hi hj

/-- C4: for every binary seed, requested count N ≥ 0 and policy, `run_game`
returns an ordered collection of exactly N grids indexed 0..N−1 in which
index 0 is the unmodified seed, each subsequent element is the update of the
previous one, and N = 0 yields an empty collection. -/
theorem run_game_batch_spec (g : Grid) (p : Bool) (N : Int)
    (hb : binary_grid g) (hN : 0 ≤ N) :
    run_game g N p = Except.ok ((List.range N.toNat).map (game_gen g p)) ∧
    ((List.range N.toNat).map (game_gen g p)).length = N.toNat ∧
    (∀ i, i < N.toNat →
      ((List.range N.toNat).map (game_gen g p)).getD i [] = game_gen g p i) ∧
    game_gen g p 0 = g ∧
    (∀ n, game_gen g p (n + 1) = update_grid (game_gen g p n) p) ∧
    (N = 0 → run_game g N p = Except.ok []) := by
  have hok : run_game g N p =
      Except.ok ((List.range N.toNat).map (game_gen g p)) := by
    unfold run_game
    rw [if_neg (show ¬(N < 0) by omega)]
    refine mapM_ok_of _ _ _ (fun k hk => ?_)
    unfold create_game
    rw [if_pos ((astype_bool_eq_iff g).mpr hb)]
  refine ⟨hok, by simp, fun i hi => getD_range_map _ _ _ _ hi, rfl,
    fun n => rfl, ?_⟩
  intro hN0
  subst hN0
  simpa using hok

theorem run_game_batch_witness :
    binary_grid [[1, 1], [1, 1]] ∧ (0 : Int) ≤ 2 ∧
      run_game [[1, 1], [1, 1]] 2 true =
        Except.ok ((List.range (2 : Int).toNat).map (game_gen [[1, 1], [1, 1]] true)) :=
  ⟨by decide, by decide,
    (run_game_batch_spec [[1, 1], [1, 1]] true 2 (by decide) (by decide)).1⟩

/-- C9: every generation produced at the public interface is strictly
binary: for a binary seed, each pull of the lazy sequence and every element
of the batch collection has all cell values in {0, 1}. -/
theorem outputs_binary_spec (g : Grid) (p : Bool) (hb : binary_grid g) :
    (∀ n, binary_grid (game_gen g p n)) ∧
    (∀ k G, create_game g p k = Except.ok G → binary_grid G) ∧
    (∀ (N : Int) out, run_game g N p = Except.ok out →
      ∀ G ∈ out, binary_grid G) := by
  have hgen : ∀ n, binary_grid (game_gen g p n) := by
    intro n
    cases n with
    | zero => exact hb
    | succ m => exact update_grid_binary _ _
  refine ⟨hgen, ?_, ?_⟩
  · intro k G hG
    unfold create_game at hG
    rw [if_pos ((astype_bool_eq_iff g).mpr hb)] at hG
    injection hG with h
    rw [← h]
    exact hgen k
  · intro N out hout G hG
    unfold run_game at hout
    by_cases hneg : N < 0
    · rw [if_pos hneg] at hout
      cases hout
    · rw [if_neg hneg] at hout
      rw [mapM_ok_of _ (game_gen g p) _ (fun k hk => by
        unfold create_game
        rw [if_pos ((astype_bool_eq_iff g).mpr hb)])] at hout
      injection hout with h
      rw [← h] at hG
      simp only [List.mem_map] at hG
      obtain ⟨i, _, rfl⟩ := hG
      exact hgen i

theorem outputs_binary_witness :
    binary_grid [[1, 0], [0, 1]] ∧
      binary_grid (game_gen [[1, 0], [0, 1]] true 3) :=
  ⟨by decide, (outputs_binary_spec [[1, 0], [0, 1]] true (by decide)).1 3⟩

/-- C3 (counterexample): on the 3×3 grid with single live cells at the
corners (0,0) and (2,2), the Periodic and Absolute policies produce the SAME
next state (each live cell has exactly one live neighbor and dies; no dead
cell reaches three), so the claimed "different next state" fails there. -/
theorem corner_equal_spec :
    update_grid (corner_grid 3 3) true = update_grid (corner_grid 3 3) false := by
  decide

/-- C3 (amended): the Periodic policy pads by wrapping — padded entry (x, y)
is logical entry ((x-1) mod H, (y-1) mod W), so the padded left column is the
grid's last column, the padded right its first, analogously for rows, corners
wrapping diagonally — and each updated cell applies the rule to the count
taken from that toroidal padding; a corner-live grid distinguishes the two
policies only on degenerate sizes, e.g. 2×3 (not 3×3). -/
theorem periodic_toroidal_spec :
    (∀ (g : Grid) (H W : Nat), rect g H W → 0 < H → 0 < W →
      ∀ x y, x ≤ H + 1 → y ≤ W + 1 →
        cellAt (pad_periodic g) x y =
          cellAt g ((x + H - 1) % H) ((y + W - 1) % W)) ∧
    (∀ (g : Grid) (H W : Nat), rect g H W → 0 < H → 0 < W →
      ∀ i j, i < H → j < W →
        cellAt (update_grid g true) i j =
          update_cell (cellAt g i j)
            (sub_sum (pad_periodic g) i j - cellAt g i j)) ∧
    update_grid (corner_grid 2 3) true ≠ update_grid (corner_grid 2 3) false := by
  refine ⟨cellAt_pad_periodic, ?_, by decide⟩
  intro g H W hg hH hW i j hi hj
  have hi' : i < g.length := by rw [hg.1]; exact hi
  have hj' : j < (g.getD 0 []).length := by
    rw [rect_getD_length g H W hg 0 hH]; exact hj
  rw [cellAt_update_grid_true g i j hi' hj',
    cellAt_pad_periodic_center g H W hg hH hW i j hi hj]

theorem periodic_toroidal_witness :
    rect [[1, 0], [0, 1]] 2 2 ∧
      cellAt (pad_periodic [[1, 0], [0, 1]]) 0 0 =
        cellAt [[1, 0], [0, 1]] ((0 + 2 - 1) % 2) ((0 + 2 - 1) % 2) :=
  ⟨by decide,
    periodic_toroidal_spec.1 [[1, 0], [0, 1]] 2 2 (by decide) (by decide)
      (by decide) 0 0 (by decide) (by decide)⟩

/-- C6: the Absolute policy resolves every out-of-range neighbor lookup as
dead — the padded grid is 0 at every off-grid position and carries the
logical grid inside — and each updated cell applies the rule to the count
taken from that zero padding. -/
theorem absolute_padding_spec :
    (∀ (g : Grid) (H W : Nat), rect g H W → ∀ x y,
      cellAt (pad_absolute g) x y =
        if 1 ≤ x ∧ x ≤ H ∧ 1 ≤ y ∧ y ≤ W then cellAt g (x - 1) (y - 1) else 0) ∧
    (∀ (g : Grid) (H W : Nat), rect g H W →
      ∀ i j, i < H → j < W →
        cellAt (update_grid g false) i j =
          update_cell (cellAt g i j)
            (sub_sum (pad_absolute g) i j - cellAt g i j)) := by
  refine ⟨cellAt_pad_absolute, ?_⟩
  intro g H W hg i j hi hj
  have hi' : i < g.length := by rw [hg.1]; exact hi
  have hj' : j < (g.getD 0 []).length := by
    rw [rect_getD_length g H W hg 0 (by omega)]; exact hj
  rw [cellAt_update_grid_false g i j hi' hj',
    cellAt_pad_absolute_center g H W hg i j hi hj]

theorem absolute_padding_witness :
    rect [[1, 0], [0, 1]] 2 2 ∧
      cellAt (pad_absolute [[1, 0], [0, 1]]) 0 0 =
        (if 1 ≤ 0 ∧ 0 ≤ 2 ∧ 1 ≤ 0 ∧ 0 ≤ 2
          then cellAt [[1, 0], [0, 1]] (0 - 1) (0 - 1) else 0) :=
  ⟨by decide, absolute_padding_spec.1 [[1, 0], [0, 1]] 2 2 (by decide) 0 0⟩

/-- C8: a 2×2 block of live cells on an otherwise dead grid of size at least
4×4 (the block fully inside) is a still life under both policies. -/
theorem block_still_life_spec (H W r c : Nat) (hH : 4 ≤ H) (hW : 4 ≤ W)
    (hr : r + 2 ≤ H) (hc : c + 2 ≤ W) :
    update_grid (block_grid H W r c) true = block_grid H W r c ∧
    update_grid (block_grid H W r c) false = block_grid H W r c := by
  have hlen : (block_grid H W r c).length = H := (rect_block H W r c).1
  have hwid : ((block_grid H W r c).getD 0 []).length = W :=
    rect_getD_length _ H W (rect_block H W r c) 0 (by omega)
  have hentry : ∀ i j, i < H → j < W →
      rowInd r i * rowInd c j =
        (if r ≤ i ∧ i < r + 2 ∧ c ≤ j ∧ j < c + 2 then 1 else 0) := by
    intro i j _ _
    unfold rowInd
    split_ifs <;> omega
  constructor
  · have hform : update_grid (block_grid H W r c) true =
        (List.range H).map fun i => (List.range W).map fun j =>
          update_cell (cellAt (pad_periodic (block_grid H W r c)) (i + 1) (j + 1))
            (sub_sum (pad_periodic (block_grid H W r c)) i j -
              cellAt (pad_periodic (block_grid H W r c)) (i + 1) (j + 1)) := by
      simp only [update_grid, if_true]
      rw [hlen, hwid]
    rw [hform]
    show _ = (List.range H).map fun i => (List.range W).map fun j =>
      if r ≤ i ∧ i < r + 2 ∧ c ≤ j ∧ j < c + 2 then 1 else 0
    exact grid_map_ext H W _ _ (fun i j hi hj => by
      rw [block_step_periodic H W r c i j hH hW hr hc hi hj]
      exact hentry i j hi hj)
  · have hform : update_grid (block_grid H W r c) false =
        (List.range H).map fun i => (List.range W).map fun j =>
          update_cell (cellAt (pad_absolute (block_grid H W r c)) (i + 1) (j + 1))
            (sub_sum (pad_absolute (block_grid H W r c)) i j -
              cellAt (pad_absolute (block_grid H W r c)) (i + 1) (j + 1)) := by
      simp only [update_grid, Bool.false_eq_true, if_false]
      rw [hlen, hwid]
    rw [hform]
    show _ = (List.range H).map fun i => (List.range W).map fun j =>
      if r ≤ i ∧ i < r + 2 ∧ c ≤ j ∧ j < c + 2 then 1 else 0
    exact grid_map_ext H W _ _ (fun i j hi hj => by
      rw [block_step_absolute H W r c i j hr hc hi hj]
      exact hentry i j hi hj)

theorem block_still_life_witness :
    (4 ≤ 5 ∧ 4 ≤ 4 ∧ 1 + 2 ≤ 5 ∧ 2 + 2 ≤ 4) ∧
      update_grid (block_grid 5 4 1 2) true = block_grid 5 4 1 2 :=
  ⟨by decide, (block_still_life_spec 5 4 1 2 (by decide) (by decide)
    (by decide) (by decide)).1⟩

end GoL
